import Mathlib

/-!
A formal model of the BudgetOS transaction pipeline (`app.py`): statement
parsing, content-based external identifiers, idempotent ledger insertion,
month locks, description-to-category mapping, and the yearly summary
arithmetic.  Python floats are idealized as rationals, and the SQLite store
is modeled as an explicit in-memory ledger value; each definition mirrors
the corresponding Python function.
-/

/-- Decimal digit character, as produced by Python's integer formatting. -/
def digitChar : Nat → Char
  | 0 => '0'
  | 1 => '1'
  | 2 => '2'
  | 3 => '3'
  | 4 => '4'
  | 5 => '5'
  | 6 => '6'
  | 7 => '7'
  | 8 => '8'
  | _ => '9'

/-- Fuel-indexed decimal digit expansion of a natural number (most
significant digit first).  `fuel` only has to exceed the digit count. -/
def natDigitsAux : Nat → Nat → List Char
  | 0, _ => []
  | fuel + 1, n =>
    if n < 10 then [digitChar n]
    else natDigitsAux fuel (n / 10) ++ [digitChar (n % 10)]

/-- Python's `str(n)` for a nonnegative integer. -/
def natToStr (n : Nat) : String := String.mk (natDigitsAux (n + 1) n)

/-- Value of a list of decimal digit characters (the reading Python's `int`
would give it). -/
def evalDigits (l : List Char) : Nat :=
  l.foldl (fun a c => a * 10 + (c.toNat - 48)) 0

/-- All characters are ASCII decimal digits. -/
def digitsOnly (l : List Char) : Bool := l.all Char.isDigit

/-- Python's `f"{m:02d}"`. -/
def pad2 (n : Nat) : String := if n < 10 then "0" ++ natToStr n else natToStr n

/-- Python's `f"{y:04d}"` (as used by `date.isoformat`). -/
def pad4 (n : Nat) : String :=
  if n < 10 then "000" ++ natToStr n
  else if n < 100 then "00" ++ natToStr n
  else if n < 1000 then "0" ++ natToStr n
  else natToStr n

/-- Python's `s[a:b]` for `0 ≤ a ≤ b` (also SQLite's `substr(s, a+1, b-a)`). -/
def pySlice (s : String) (a b : Nat) : String :=
  String.mk ((s.toList.drop a).take (b - a))

/-- Strip leading and trailing whitespace from a character list. -/
def stripList (l : List Char) : List Char :=
  ((l.dropWhile Char.isWhitespace).reverse.dropWhile Char.isWhitespace).reverse

/-- Python's `str.strip()`. -/
def pyStrip (s : String) : String := String.mk (stripList s.toList)

/-- Accumulator pass of `pyWords`: split into maximal non-whitespace runs. -/
def wordsAux : List Char → List Char → List (List Char)
  | [], acc => if acc.isEmpty then [] else [acc.reverse]
  | c :: t, acc =>
    if c.isWhitespace then
      if acc.isEmpty then wordsAux t [] else acc.reverse :: wordsAux t []
    else wordsAux t (c :: acc)

/-- Python's `str.split()` on a character list (split on whitespace runs,
dropping empties). -/
def pyWords (l : List Char) : List (List Char) := wordsAux l []

/-- Python's `" ".join(words)`. -/
def joinSpace : List (List Char) → List Char
  | [] => []
  | [w] => w
  | w :: ws => w ++ ' ' :: joinSpace ws

/-- Python's `str.replace(sub, rep)` on character lists: replace each
non-overlapping occurrence left to right, scanning on after the
replacement.  `fuel` bounds the recursion; one character is consumed per
step, so the list length suffices.  (An empty `sub` never occurs in this
code base and is treated as no-op.) -/
def replaceFuel (sub rep : List Char) : Nat → List Char → List Char
  | 0, l => l
  | _ + 1, [] => []
  | fuel + 1, c :: t =>
    if sub.isPrefixOf (c :: t) && !sub.isEmpty then
      rep ++ replaceFuel sub rep fuel ((c :: t).drop sub.length)
    else c :: replaceFuel sub rep fuel t

/-- Split a character list at every occurrence of a separator, keeping
empty fields (Python's `str.split('/')`). -/
def splitChar (sep : Char) : List Char → List (List Char)
  | [] => [[]]
  | c :: t =>
    if c == sep then [] :: splitChar sep t
    else
      match splitChar sep t with
      | [] => [[c]]
      | w :: ws => (c :: w) :: ws

/-- Substring test on character lists (Python's `sub in s`). -/
def listContains : List Char → List Char → Bool
  | [], sub => sub.isEmpty
  | c :: t, sub => sub.isPrefixOf (c :: t) || listContains t sub

/-- A raw tabular cell as seen by the import code: missing (`NaN`), numeric,
or textual. -/
inductive CsvVal where
  | na
  | num (q : ℚ)
  | str (s : String)
deriving DecidableEq, Repr

/-- Mantissa part accepted by Python's `float(...)`: digits with an optional
single decimal point, at least one digit present. -/
def parseMant (l : List Char) : Option ℚ :=
  match l.span (fun c => c != '.') with
  | (ip, []) =>
    if digitsOnly ip && !ip.isEmpty then some (evalDigits ip : ℚ) else none
  | (ip, _ :: fp) =>
    if digitsOnly ip && digitsOnly fp && (!ip.isEmpty || !fp.isEmpty) then
      some ((evalDigits ip : ℚ) + (evalDigits fp : ℚ) / (10 : ℚ) ^ fp.length)
    else none

/-- Signed integer exponent accepted after `e`/`E` by Python's `float`. -/
def parseExpInt (l : List Char) : Option ℤ :=
  match l with
  | '+' :: r => if digitsOnly r && !r.isEmpty then some (evalDigits r : ℤ) else none
  | '-' :: r => if digitsOnly r && !r.isEmpty then some (-(evalDigits r : ℤ)) else none
  | r => if digitsOnly r && !r.isEmpty then some (evalDigits r : ℤ) else none

/-- Unsigned float literal: mantissa with optional exponent part. -/
def parseUnsigned (l : List Char) : Option ℚ :=
  match l.span (fun c => c != 'e' && c != 'E') with
  | (m, []) => parseMant m
  | (m, _ :: ex) =>
    match parseMant m, parseExpInt ex with
    | some q, some z => some (q * (10 : ℚ) ^ z)
    | _, _ => none

/-- Optionally signed float literal. -/
def parseSigned (l : List Char) : Option ℚ :=
  match l with
  | '+' :: r => parseUnsigned r
  | '-' :: r => (parseUnsigned r).map (fun q => -q)
  | r => parseUnsigned r

/-- Python's `float(s)` on the decimal/exponent fragment of its grammar,
idealized over the rationals (`inf`/`nan` literals and underscores are not
representable here and are treated as parse failures). -/
def pyFloatQ (l : List Char) : Option ℚ := parseSigned (stripList l)

/-- The parenthesized-negative rewrite of `parse_amount`: a string starting
with `(` and ending with `)` becomes `-` followed by the interior. -/
def parenNeg (l : List Char) : List Char :=
  if l.head? == some '(' && l.getLast? == some ')' then
    '-' :: (l.drop 1).dropLast
  else l

/-- Model of `parse_amount` in `app.py`: `NaN` yields no amount, numeric cells pass
through, strings are cleaned of `$` and `,` (Python's single-character
`str.replace` deletions), stripped, the parenthesized form is negated, and
the result is parsed as a float — `None` on failure. -/
def parse_amount : CsvVal → Option ℚ
  | .na => none
  | .num q => some q
  | .str v =>
    let cleaned := stripList ((v.toList.filter (fun c => c != '$')).filter (fun c => c != ','))
    pyFloatQ (parenNeg cleaned)

/-- Banker's rounding of a rational to an integer (ties to even), the
rounding Python's fixed-point float formatting applies. -/
def roundHalfEven (q : ℚ) : ℤ :=
  let f := ⌊q⌋
  let frac := q - (f : ℚ)
  if frac < 1 / 2 then f
  else if 1 / 2 < frac then f + 1
  else if f % 2 = 0 then f else f + 1

/-- Python's `f"{x:.2f}"` on the rational idealization of a float. -/
def fmt2 (q : ℚ) : String :=
  let c := (roundHalfEven (|q| * 100)).toNat
  (if q < 0 then "-" else "") ++ natToStr (c / 100) ++ "." ++ pad2 (c % 100)

/-- A candidate transaction record produced by the parser, before it is
assigned an external identifier (the row dictionaries of
`import_chase_csv`). -/
structure TxnRec where
  txn_date : String
  posted_date : Option String := none
  description : String
  amount : ℚ
  kind : String
  account : Option String := none
  category : Option String := none
  excluded : Int := 0
  notes : Option String := none
deriving DecidableEq, Repr

/-- The content signature of `make_external_ids`.  A missing optional field
renders as Python's `f"{None}"`, i.e. the text `None`. -/
def sig (r : TxnRec) : String :=
  r.txn_date ++ "|" ++ r.posted_date.getD "None" ++ "|" ++ fmt2 r.amount ++ "|"
    ++ r.description ++ "|" ++ r.account.getD "None" ++ "|" ++ r.kind

/-- External identifier text: truncated content hash, dash, 1-based
duplicate index (the `f"{h}-{i}"` of `make_external_ids`). -/
def encodeId (h : String) (n : Nat) : String := h ++ "-" ++ natToStr n

/-- Assign identifiers to a list of row hashes: each row gets its hash
tagged with one plus the number of earlier rows carrying the same hash
(pandas' `groupby(h).cumcount() + 1`). -/
def assignIds (seen : List String) : List String → List String
  | [] => []
  | h :: t => encodeId h (seen.count h + 1) :: assignIds (h :: seen) t

/-- Model of `make_external_ids` in `app.py`, parameterized by the content hash
(`base_hash`, a truncated SHA-256 in the source, is an opaque string
function here; every theorem below holds for an arbitrary hash). -/
def make_external_ids (hash : String → String) (batch : List TxnRec) : List String :=
  assignIds [] (batch.map (fun r => hash (sig r)))

/-- A stored ledger row (the `ledger` table). -/
structure Txn where
  id : Nat
  external_id : String
  txn_date : String
  posted_date : Option String := none
  description : String
  amount : ℚ
  kind : String
  account : Option String := none
  category : Option String := none
  excluded : Int := 0
  notes : Option String := none
  created_at : String
deriving DecidableEq, Repr

/-- The SQLite store: rows plus the autoincrement counter. -/
structure Ledger where
  rows : List Txn
  nextId : Nat
deriving DecidableEq, Repr

/-- The external identifiers present in the store (the unique index
`idx_ledger_external_id`). -/
def extIds (L : Ledger) : List String := L.rows.map (fun t => t.external_id)

/-- Build the stored row for an insert (`INSERT INTO ledger(...)`). -/
def toTxn (nid : Nat) (now : String) (eid : String) (r : TxnRec) : Txn :=
  { id := nid, external_id := eid, txn_date := r.txn_date,
    posted_date := r.posted_date, description := r.description,
    amount := r.amount, kind := r.kind, account := r.account,
    category := r.category, excluded := r.excluded, notes := r.notes,
    created_at := now }

/-- The loop body of `insert_rows`: each row is attempted independently; a
duplicate external identifier raises `IntegrityError`, which is caught and
counted as a skip. -/
def insertAux (now : String) (M : Ledger) (ins skip : Nat) :
    List (String × TxnRec) → Ledger × Nat × Nat
  | [] => (M, ins, skip)
  | er :: rest =>
    if er.1 ∈ extIds M then insertAux now M ins (skip + 1) rest
    else
      insertAux now
        { rows := M.rows ++ [toTxn M.nextId now er.1 er.2], nextId := M.nextId + 1 }
        (ins + 1) skip rest

/-- Model of `insert_rows` in `app.py`: fold the batch into the store, returning the
`(inserted, skipped)` counts. -/
def insert_rows (now : String) (L : Ledger) (batch : List (String × TxnRec)) :
    Ledger × Nat × Nat :=
  insertAux now L 0 0 batch

/-- Variant of `insert_rows` with environment faults made explicit: `fault i` is the
storage failure (if any) the `i`-th `INSERT` raises besides a uniqueness
violation.  The Python `try/except sqlite3.IntegrityError` catches only the
duplicate-identifier case, so any other failure escapes the loop. -/
def insertFltAux (now : String) (fault : Nat → Option String) (M : Ledger)
    (ins skip : Nat) : List (String × TxnRec) → Except String (Ledger × Nat × Nat)
  | [] => .ok (M, ins, skip)
  | er :: rest =>
    match fault 0 with
    | some e => .error e
    | none =>
      if er.1 ∈ extIds M then
        insertFltAux now (fun n => fault (n + 1)) M ins (skip + 1) rest
      else
        insertFltAux now (fun n => fault (n + 1))
          { rows := M.rows ++ [toTxn M.nextId now er.1 er.2], nextId := M.nextId + 1 }
          (ins + 1) skip rest

/-- The full `insert_rows` loop under the explicit fault model. -/
def insert_rows_flt (now : String) (fault : Nat → Option String) (L : Ledger)
    (batch : List (String × TxnRec)) : Except String (Ledger × Nat × Nat) :=
  insertFltAux now fault L 0 0 batch

/-- Model of `normalize_description` in `app.py`: uppercase, collapse whitespace
(split and rejoin with single spaces), the redundant `"  " -> " "`
replacement, delete every digit character, recollapse. -/
def normalize_description (desc : String) : String :=
  if desc == "" then ""
  else
    let s := joinSpace (pyWords (desc.data.map Char.toUpper))
    let s := replaceFuel [' ', ' '] [' '] s.length s
    let s := s.filter (fun ch => !ch.isDigit)
    String.mk (joinSpace (pyWords s))

/-- The preference map (`preferences.json`), a Python dict modeled as an
association list with unique keys; lookup returns the first match. -/
def prefsLookup (prefs : List (String × String)) (d : String) : Option String :=
  (prefs.find? (fun kv => kv.1 == d)).map (fun kv => kv.2)

/-- The auto-categorization step of the CSV import
(`df_new.loc[mask, "category"] = df_new.loc[mask, "description"].map(prefs)`):
every expense row's category is set to the preference-map lookup of its raw
description. -/
def apply_mapping (prefs : List (String × String)) (recs : List TxnRec) : List TxnRec :=
  recs.map (fun r =>
    if r.kind == "expense" then { r with category := prefsLookup prefs r.description }
    else r)

/-- The opt-in similar-variants pass of the categorization wizard: the other
descriptions sharing a normalized form with `desc`. -/
def similar_variants (desc : String) (others : List String) : List String :=
  others.filter (fun d => d != desc && normalize_description d == normalize_description desc)

/-- Model of `month_of` in `app.py`: characters 5..6 of the ISO date. -/
def month_of (txn_date_iso : String) : String := pySlice txn_date_iso 5 7

/-- Model of `update_category_for_description` in `app.py`: set the category of every
matching uncategorized expense row of the year whose month is not locked.
The `SELECT` + per-id `UPDATE` pair of the source is modeled as one map over
the store (primary keys are unique). -/
def update_category_for_description (ledger : List Txn) (description category : String)
    (year : Nat) (locked : List String) : List Txn :=
  ledger.map (fun t =>
    if (t.description == description && t.kind == "expense"
          && (t.category == none || t.category == some "")
          && pySlice t.txn_date 0 4 == natToStr year)
        && !(locked.contains (month_of t.txn_date)) then
      { t with category := some category }
    else t)

/-- The partial update accepted by `update_txn_by_id`; exactly the allowed
mutable columns, `none` meaning "not part of the update". -/
structure Updates where
  txn_date : Option String := none
  posted_date : Option (Option String) := none
  description : Option String := none
  amount : Option ℚ := none
  kind : Option String := none
  account : Option (Option String) := none
  category : Option (Option String) := none
  excluded : Option Int := none
  notes : Option (Option String) := none
deriving DecidableEq, Repr

/-- No column is updated (`if not set_cols: return`). -/
def updatesEmpty (u : Updates) : Bool :=
  u.txn_date == none && u.posted_date == none && u.description == none
    && u.amount == none && u.kind == none && u.account == none
    && u.category == none && u.excluded == none && u.notes == none

/-- Apply a partial update to a row (the generated `UPDATE ledger SET ...`). -/
def applyUpdates (u : Updates) (t : Txn) : Txn :=
  { t with
    txn_date := u.txn_date.getD t.txn_date,
    posted_date := u.posted_date.getD t.posted_date,
    description := u.description.getD t.description,
    amount := u.amount.getD t.amount,
    kind := u.kind.getD t.kind,
    account := u.account.getD t.account,
    category := u.category.getD t.category,
    excluded := u.excluded.getD t.excluded,
    notes := u.notes.getD t.notes }

/-- Model of `update_txn_by_id` in `app.py`: update the row with the given primary
key, or do nothing when no allowed column is present. -/
def update_txn_by_id (ledger : List Txn) (txn_id : Nat) (u : Updates) : List Txn :=
  if updatesEmpty u then ledger
  else ledger.map (fun t => if t.id == txn_id then applyUpdates u t else t)

/-- The month of a stored row is locked. -/
def isLockedTxn (locked : List String) (t : Txn) : Bool :=
  locked.contains (month_of t.txn_date)

/-- The `locked` flag the ledger editor displays for a row id: computed from
the row's stored transaction date before any edit is applied. -/
def isLockedId (ledger : List Txn) (locked : List String) (tid : Nat) : Bool :=
  match ledger.find? (fun t => t.id == tid) with
  | some t => isLockedTxn locked t
  | none => false

/-- One iteration of the "Save edits" loop of the Admin Ledger page: skip
rows whose (pre-edit) month is locked, skip empty diffs, otherwise apply the
diff and count the change. -/
def saveEditStep (ledger : List Txn) (locked : List String)
    (acc : List Txn × Nat) (e : Nat × Updates) : List Txn × Nat :=
  if isLockedId ledger locked e.1 then acc
  else if updatesEmpty e.2 then acc
  else (update_txn_by_id acc.1 e.1 e.2, acc.2 + 1)

/-- The bulk-save path of the Admin Ledger page over `update_txn_by_id`:
fold the edited diffs into the store, returning it with the reported change
count. -/
def save_edits (ledger : List Txn) (locked : List String)
    (edits : List (Nat × Updates)) : List Txn × Nat :=
  edits.foldl (saveEditStep ledger locked) (ledger, 0)

/-- A Python `datetime.date` value. -/
structure PyDate where
  year : Nat
  month : Nat
  day : Nat
deriving DecidableEq, Repr

/-- Days in a month under the Gregorian leap rule (as `datetime` checks). -/
def daysInMonth (y m : Nat) : Nat :=
  if m == 2 then (if (y % 4 == 0 && y % 100 != 0) || y % 400 == 0 then 29 else 28)
  else if m == 4 || m == 6 || m == 9 || m == 11 then 30
  else 31

/-- The field ranges `datetime.date` accepts. -/
def validDate (d : PyDate) : Prop :=
  1 ≤ d.year ∧ d.year ≤ 9999 ∧ 1 ≤ d.month ∧ d.month ≤ 12
    ∧ 1 ≤ d.day ∧ d.day ≤ daysInMonth d.year d.month

/-- Construct a date, failing outside `datetime.date`'s ranges (the
`ValueError` `strptime` raises). -/
def mkValidDate (y m d : Nat) : Option PyDate :=
  if 1 ≤ y && y ≤ 9999 && 1 ≤ m && m ≤ 12 && 1 ≤ d && d ≤ daysInMonth y m then
    some ⟨y, m, d⟩
  else none

/-- Python's `date.isoformat()`: `YYYY-MM-DD` with zero padding. -/
def isoformat (d : PyDate) : String :=
  pad4 d.year ++ "-" ++ pad2 d.month ++ "-" ++ pad2 d.day

/-- A numeric field of `strptime`: between `lo` and `hi` digits. -/
def numField (lo hi : Nat) (l : List Char) : Option Nat :=
  if lo ≤ l.length && l.length ≤ hi && digitsOnly l && !l.isEmpty then
    some (evalDigits l)
  else none

/-- Python's `datetime.strptime(s, "%m/%d/%Y")` (`%Y` is exactly four digits in
CPython's `_strptime`, `%m`/`%d` one or two). -/
def strptime_mdY (s : String) : Option PyDate :=
  match splitChar '/' s.data with
  | [ms, ds, ys] => do
    let m ← numField 1 2 ms
    let d ← numField 1 2 ds
    let y ← numField 4 4 ys
    mkValidDate y m d
  | _ => none

/-- Python's `datetime.strptime(s, "%m/%d/%y")` (two-digit years pivot at 69). -/
def strptime_mdy (s : String) : Option PyDate :=
  match splitChar '/' s.data with
  | [ms, ds, ys] => do
    let m ← numField 1 2 ms
    let d ← numField 1 2 ds
    let y ← numField 2 2 ys
    mkValidDate (if y ≤ 68 then 2000 + y else 1900 + y) m d
  | _ => none

/-- Python's `datetime.strptime(s, "%Y-%m-%d")`. -/
def strptime_Ymd (s : String) : Option PyDate :=
  match splitChar '-' s.data with
  | [ys, ms, ds] => do
    let y ← numField 4 4 ys
    let m ← numField 1 2 ms
    let d ← numField 1 2 ds
    mkValidDate y m d
  | _ => none

/-- Model of `parse_date` in `app.py`: `NaN` yields nothing, otherwise the stripped
text is tried against the three explicit formats and then handed to the
generic `pd.to_datetime` fallback (an opaque parameter here, since it is a
library routine); every success is rendered with `date.isoformat()`.  The
cell is modeled as its `str()` rendering. -/
def parse_date (fallback : String → Option PyDate) (val : Option String) : Option String :=
  match val with
  | none => none
  | some v =>
    match strptime_mdY (pyStrip v) with
    | some d => some (isoformat d)
    | none =>
      match strptime_mdy (pyStrip v) with
      | some d => some (isoformat d)
      | none =>
        match strptime_Ymd (pyStrip v) with
        | some d => some (isoformat d)
        | none => (fallback (pyStrip v)).map isoformat

/-- A raw CSV row as `import_chase_csv` reads it: the date cells (already
`str()`-rendered, `none` for `NaN`), the stripped-to-be description text,
the amount cell, and the optional `Type` cell (`none` when the column is
absent). -/
structure RawRow where
  txn : Option String
  post : Option (Option String)
  desc : String
  amt : CsvVal
  typ : Option String
deriving Repr

/-- The per-row body of `import_chase_csv`: parse the dates and the amount,
drop the row when the date or amount is unparseable or the description is
empty, mark payments excluded, and optionally route positive adjustments to
income with the fixed category. -/
def import_row (route_credits : Bool) (account : String)
    (fallback : String → Option PyDate) (r : RawRow) : Option TxnRec :=
  let txn_date := parse_date fallback r.txn
  let posted := match r.post with
    | none => none
    | some c => parse_date fallback c
  let desc := pyStrip r.desc
  let amt := parse_amount r.amt
  match txn_date, amt with
  | some td, some a =>
    if td == "" || desc == "" then none
    else
      let t := String.mk ((stripList (r.typ.getD "").data).map Char.toLower)
      if listContains t.toList "payment".toList then
        some { txn_date := td, posted_date := posted, description := desc,
               amount := a, kind := "expense", account := some account,
               category := none, excluded := 1, notes := none }
      else if route_credits && listContains t.toList "adjustment".toList && a > 0 then
        some { txn_date := td, posted_date := posted, description := desc,
               amount := a, kind := "income", account := some account,
               category := some "Credit Card Redemptions/Interest",
               excluded := 0, notes := none }
      else
        some { txn_date := td, posted_date := posted, description := desc,
               amount := a, kind := "expense", account := some account,
               category := none, excluded := 0, notes := none }
  | _, _ => none

/-- The row loop of `import_chase_csv`: parse failures drop the row and the
batch continues. -/
def import_chase_rows (route_credits : Bool) (account : String)
    (fallback : String → Option PyDate) (rows : List RawRow) : List TxnRec :=
  rows.filterMap (import_row route_credits account fallback)

/-- Model of `fetch_year` in `app.py`: rows whose date text starts with `str(year)`,
ordered by date then primary key. -/
def fetch_year (ledger : List Txn) (year : Nat) : List Txn :=
  (ledger.filter (fun t => pySlice t.txn_date 0 4 == natToStr year)).mergeSort
    (fun t u => decide (t.txn_date < u.txn_date)
      || (t.txn_date == u.txn_date && t.id ≤ u.id))

/-- The `MONTH_COLS` constant of `app.py`: `["01", ..., "12"]`. -/
def monthCols : List String := (List.range 12).map (fun m => pad2 (m + 1))

/-- Model of `signed_to_spend` in `app.py`. -/
def signed_to_spend (amount : ℚ) : ℚ := -amount

/-- An expense row contributing to the summary (`kind=expense`, not
excluded). -/
def isExpTxn (t : Txn) : Bool := t.kind == "expense" && t.excluded == 0

/-- An income row contributing to the summary (`kind=income`, not
excluded). -/
def isIncTxn (t : Txn) : Bool := t.kind == "income" && t.excluded == 0

/-- One cell of the expense pivot before reindexing: total spend of a
category in a month (pandas `pivot_table(..., aggfunc="sum", fill_value=0)`). -/
def expMonthSum (txns : List Txn) (c m : String) : ℚ :=
  ((txns.filter (fun t =>
      isExpTxn t && t.category == some c && month_of t.txn_date == m)).map
    (fun t => signed_to_spend t.amount)).sum

/-- One cell of the income pivot before reindexing (raw amounts, not
negated). -/
def incMonthSum (txns : List Txn) (c m : String) : ℚ :=
  ((txns.filter (fun t =>
      isIncTxn t && t.category == some c && month_of t.txn_date == m)).map
    (fun t => t.amount)).sum

/-- The categories actually present in the expense data (the pivot's row
index; pandas drops null categories from the index). -/
def expPivotCats (txns : List Txn) : List String :=
  ((txns.filter isExpTxn).filterMap (fun t => t.category)).dedup

/-- The categories actually present in the income data. -/
def incPivotCats (txns : List Txn) : List String :=
  ((txns.filter isIncTxn).filterMap (fun t => t.category)).dedup

/-- A cell of the reindexed expense pivot: the pivot value when the
category occurs in the data, and the `fillna(0.0)` value otherwise. -/
def expCell (txns : List Txn) (c m : String) : ℚ :=
  if c ∈ expPivotCats txns then expMonthSum txns c m else 0

/-- A cell of the reindexed income pivot. -/
def incCell (txns : List Txn) (c m : String) : ℚ :=
  if c ∈ incPivotCats txns then incMonthSum txns c m else 0

/-- One summary table row: the twelve month columns plus the four derived
columns. -/
structure RowData where
  months : List ℚ
  apm : ℚ
  ytd : ℚ
  apw : ℚ
  apd : ℚ
deriving DecidableEq, Repr

/-- Append the derived columns exactly as `compute_summary` does: the
average-per-month is computed from the month columns, then the YTD total,
then the per-week and per-day averages from the YTD total with the fixed
divisors 52 and 364. -/
def deriveRow (ms : List ℚ) : RowData :=
  let apm := ms.sum / 12
  let ytd := ms.sum
  { months := ms, apm := apm, ytd := ytd, apw := ytd / 52, apd := ytd / 364 }

/-- The expense table row of one category. -/
def expRow (txns : List Txn) (c : String) : RowData :=
  deriveRow (monthCols.map (expCell txns c))

/-- The income table row of one category. -/
def incRow (txns : List Txn) (c : String) : RowData :=
  deriveRow (monthCols.map (incCell txns c))

/-- The category rows of the expense table: `reindex(expense_cats)` keeps
exactly the caller's categories, in the caller's order. -/
def expRows (txns : List Txn) (cats : List String) : List (String × RowData) :=
  cats.map (fun c => (c, expRow txns c))

/-- The category rows of the income table. -/
def incRows (txns : List Txn) (cats : List String) : List (String × RowData) :=
  cats.map (fun c => (c, incRow txns c))

/-- The `total_spent` value: sum of the YTD column over the category rows. -/
def total_spent (txns : List Txn) (cats : List String) : ℚ :=
  ((expRows txns cats).map (fun rc => rc.2.ytd)).sum

/-- The `total_income` value: sum of the YTD column over the income category rows. -/
def total_income (txns : List Txn) (cats : List String) : ℚ :=
  ((incRows txns cats).map (fun rc => rc.2.ytd)).sum

/-- The `spend_by_month` series: one column sum of the reindexed expense pivot. -/
def spend_by_month (txns : List Txn) (cats : List String) (m : String) : ℚ :=
  (cats.map (fun c => expCell txns c m)).sum

/-- The `income_by_month` series: one column sum of the reindexed income pivot. -/
def income_by_month (txns : List Txn) (cats : List String) (m : String) : ℚ :=
  (cats.map (fun c => incCell txns c m)).sum

/-- The series `saved_by_month = income_by_month - spend_by_month`. -/
def saved_by_month (txns : List Txn) (ecats icats : List String) (m : String) : ℚ :=
  income_by_month txns icats m - spend_by_month txns ecats m

/-- The value `total_saved = total_income - total_spent`. -/
def total_saved (txns : List Txn) (ecats icats : List String) : ℚ :=
  total_income txns icats - total_spent txns ecats

/-- One monthly savings rate: `(sav_m / inc_m) if inc_m else 0.0`. -/
def rate_month (txns : List Txn) (ecats icats : List String) (m : String) : ℚ :=
  if income_by_month txns icats m ≠ 0 then
    saved_by_month txns ecats icats m / income_by_month txns icats m
  else 0

/-- The YTD savings rate: `(total_saved / total_income) if total_income
else 0.0`. -/
def savings_rate_ytd (txns : List Txn) (ecats icats : List String) : ℚ :=
  if total_income txns icats ≠ 0 then
    total_saved txns ecats icats / total_income txns icats
  else 0

/-- The `Total Spent` row appended to the expense table. -/
def expTotalRow (txns : List Txn) (cats : List String) : RowData :=
  { months := monthCols.map (spend_by_month txns cats),
    apm := total_spent txns cats / 12,
    ytd := total_spent txns cats,
    apw := total_spent txns cats / 52,
    apd := total_spent txns cats / 364 }

/-- The `Total Net Income` row appended to the income table. -/
def incTotalRow (txns : List Txn) (cats : List String) : RowData :=
  { months := monthCols.map (income_by_month txns cats),
    apm := total_income txns cats / 12,
    ytd := total_income txns cats,
    apw := total_income txns cats / 52,
    apd := total_income txns cats / 364 }

/-- The `Total Saved` row of the savings table. -/
def savedRow (txns : List Txn) (ecats icats : List String) : RowData :=
  { months := monthCols.map (saved_by_month txns ecats icats),
    apm := total_saved txns ecats icats / 12,
    ytd := total_saved txns ecats icats,
    apw := total_saved txns ecats icats / 52,
    apd := total_saved txns ecats icats / 364 }

/-- The value of `compute_summary`: both labeled tables, the savings row,
the twelve monthly savings rates, and the YTD savings rate. -/
structure Summary where
  exp_table : List (String × RowData)
  inc_table : List (String × RowData)
  saved_row : RowData
  rate_months : List ℚ
  rate_ytd : ℚ
deriving DecidableEq, Repr

/-- Model of `compute_summary` in `app.py`. -/
def compute_summary (txns : List Txn) (expense_cats income_cats : List String) : Summary :=
  { exp_table := expRows txns expense_cats ++ [("Total Spent", expTotalRow txns expense_cats)],
    inc_table := incRows txns income_cats ++ [("Total Net Income", incTotalRow txns income_cats)],
    saved_row := savedRow txns expense_cats income_cats,
    rate_months := monthCols.map (rate_month txns expense_cats income_cats),
    rate_ytd := savings_rate_ytd txns expense_cats income_cats }

/-- An empty store (fresh database). -/
def emptyLedger : Ledger := { rows := [], nextId := 1 }

/-- A negative income transaction (reachable through the Admin Ledger
editor, which lets the user set any kind and any amount). -/
def txNegIncome : Txn :=
  { id := 1, external_id := "e1", txn_date := "2024-01-05",
    description := "REVERSED DEPOSIT", amount := -100, kind := "income",
    category := some "Salary", excluded := 0, created_at := "t0" }

/-- A preference map with one stored description key. -/
def prefsCoffee : List (String × String) := [("STARBUCKS 123", "Coffee")]

/-- An expense record whose description matches a stored preference key
only up to digit runs. -/
def recCoffee456 : TxnRec :=
  { txn_date := "2024-02-01", description := "STARBUCKS 456", amount := -5,
    kind := "expense" }

/-- An expense record whose description equals a stored preference key. -/
def recCoffee123 : TxnRec :=
  { txn_date := "2024-02-01", description := "STARBUCKS 123", amount := -5,
    kind := "expense" }

/-- A stored March transaction (used to exercise the month lock). -/
def txMarch : Txn :=
  { id := 1, external_id := "m1", txn_date := "2024-03-05",
    description := "LATTE", amount := -4, kind := "expense",
    category := none, excluded := 0, created_at := "t0" }

/-- An edit that tries to recategorize a row. -/
def updSetCategory : Updates := { category := some (some "Dining") }

/-- A repeated purchase: two byte-identical records in one batch. -/
def recRepeated : TxnRec :=
  { txn_date := "2024-01-05", description := "COFFEE", amount := -5,
    kind := "expense" }

/-- A raw CSV row whose amount cell is unparseable. -/
def rawRowBadAmount : RawRow :=
  { txn := some "01/05/2024", post := none, desc := "COFFEE",
    amt := .str "abc", typ := some "Sale" }

/-- A raw CSV row that parses cleanly. -/
def rawRowGood : RawRow :=
  { txn := some "01/06/2024", post := none, desc := "TEA",
    amt := .str "(12.34)", typ := some "Sale" }

/-- A one-row store whose only external identifier is `id1`. -/
def ledgerOne : Ledger := { rows := [toTxn 1 "t0" "id1" recRepeated], nextId := 2 }

/-- A stored transaction dated in calendar year 5, as produced by
the import path itself from the text `0005-01-03`. -/
def txYear5 : Txn :=
  { id := 1, external_id := "y5", txn_date := "0005-01-03",
    description := "OLD", amount := -1, kind := "expense",
    category := none, excluded := 0, created_at := "t0" }

theorem data_append (s t : String) : (s ++ t).data = s.data ++ t.data := rfl

theorem toList_eq_data (s : String) : s.toList = s.data := rfl

theorem string_data_inj {s t : String} (h : s.data = t.data) : s = t :=
  congrArg String.mk h

theorem digitChar_ne_dash (n : Nat) : digitChar n ≠ '-' := by
  unfold digitChar; split <;> decide

theorem digitChar_toNat (n : Nat) (h : n < 10) : (digitChar n).toNat - 48 = n := by
  interval_cases n <;> rfl

theorem natDigitsAux_no_dash : ∀ fuel n, '-' ∉ natDigitsAux fuel n := by
  intro fuel
  induction fuel with
  | zero => intro n h; simp [natDigitsAux] at h
  | succ f ih =>
    intro n h
    by_cases hn : n < 10
    · simp [natDigitsAux, hn] at h
      exact digitChar_ne_dash n h.symm
    · simp [natDigitsAux, hn] at h
      rcases h with h | h
      · exact ih _ h
      · exact digitChar_ne_dash _ h.symm

theorem evalDigits_append_singleton (l : List Char) (c : Char) :
    evalDigits (l ++ [c]) = evalDigits l * 10 + (c.toNat - 48) := by
  simp [evalDigits, List.foldl_append]

theorem natDigitsAux_eval : ∀ fuel n, n < 10 ^ fuel → evalDigits (natDigitsAux fuel n) = n := by
  intro fuel
  induction fuel with
  | zero =>
    intro n h
    simp at h
    subst h
    rfl
  | succ f ih =>
    intro n h
    by_cases hn : n < 10
    · simp [natDigitsAux, hn, evalDigits]
      exact digitChar_toNat n hn
    · have hdiv : n / 10 < 10 ^ f := by
        rw [Nat.div_lt_iff_lt_mul (by norm_num)]
        calc n < 10 ^ (f + 1) := h
        _ = 10 ^ f * 10 := by rw [pow_succ]
      simp only [natDigitsAux, if_neg hn]
      rw [evalDigits_append_singleton, ih _ hdiv, digitChar_toNat _ (Nat.mod_lt _ (by norm_num))]
      omega

theorem natToStr_eval (n : Nat) : evalDigits (natToStr n).data = n := by
  have h1 : n < 10 ^ n := Nat.lt_pow_self (by norm_num) n
  have : n < 10 ^ (n + 1) := lt_of_lt_of_le h1 (Nat.pow_le_pow_right (by norm_num) (Nat.le_succ n))
  exact natDigitsAux_eval (n + 1) n this

theorem natToStr_inj {a b : Nat} (h : natToStr a = natToStr b) : a = b := by
  have := congrArg (fun s => evalDigits s.data) h
  simpa [natToStr_eval] using this

theorem natToStr_no_dash (n : Nat) : '-' ∉ (natToStr n).data :=
  natDigitsAux_no_dash (n + 1) n

theorem append_dash_inj : ∀ (a c b d : List Char), '-' ∉ b → '-' ∉ d →
    a ++ '-' :: b = c ++ '-' :: d → a = c ∧ b = d := by
  intro a
  induction a with
  | nil =>
    intro c b d hb hd h
    cases c with
    | nil => simpa using h
    | cons y c' =>
      simp at h
      exact absurd (h.2 ▸ List.mem_append_right c' (List.mem_cons_self _ _)) hb
  | cons x a' ih =>
    intro c b d hb hd h
    cases c with
    | nil =>
      simp at h
      exact absurd (h.2 ▸ List.mem_append_right a' (List.mem_cons_self _ _)) hd
    | cons y c' =>
      simp at h
      obtain ⟨hxy, hrest⟩ := h
      obtain ⟨h1, h2⟩ := ih c' b d hb hd hrest
      exact ⟨by rw [hxy, h1], h2⟩

theorem encodeId_data (h : String) (n : Nat) :
    (encodeId h n).data = h.data ++ '-' :: (natToStr n).data := by
  simp [encodeId, data_append]

theorem encodeId_inj {h1 h2 : String} {n1 n2 : Nat}
    (e : encodeId h1 n1 = encodeId h2 n2) : h1 = h2 ∧ n1 = n2 := by
  have hd := congrArg String.data e
  rw [encodeId_data, encodeId_data] at hd
  obtain ⟨ha, hb⟩ := append_dash_inj h1.data h2.data (natToStr n1).data (natToStr n2).data
    (natToStr_no_dash n1) (natToStr_no_dash n2) hd
  exact ⟨string_data_inj ha, natToStr_inj (string_data_inj hb)⟩

theorem assignIds_length (seen l : List String) :
    (assignIds seen l).length = l.length := by
  induction l generalizing seen with
  | nil => rfl
  | cons h t ih => simp [assignIds, ih]

theorem assignIds_mem_count {seen l : List String} {h : String} {n : Nat}
    (hm : encodeId h n ∈ assignIds seen l) : seen.count h < n := by
  induction l generalizing seen with
  | nil => simp [assignIds] at hm
  | cons h' t ih =>
    simp only [assignIds, List.mem_cons] at hm
    rcases hm with he | ht
    · obtain ⟨hh, hn⟩ := encodeId_inj he
      subst hh
      omega
    · have h1 := ih ht
      have h2 : seen.count h ≤ (h' :: seen).count h := by
        by_cases hc : h' = h <;> simp [List.count_cons, hc]
      omega

theorem assignIds_nodup (seen l : List String) : (assignIds seen l).Nodup := by
  induction l generalizing seen with
  | nil => simp [assignIds]
  | cons h t ih =>
    simp only [assignIds, List.nodup_cons]
    refine ⟨fun hm => ?_, ih _⟩
    have := assignIds_mem_count hm
    simp [List.count_cons] at this

theorem assignIds_getElem? (l : List String) : ∀ (seen : List String) (i : Nat),
    (assignIds seen l)[i]? =
      (l[i]?).map (fun h => encodeId h ((seen ++ l.take i).count h + 1)) := by
  induction l with
  | nil => intro seen i; simp [assignIds]
  | cons h t ih =>
    intro seen i
    cases i with
    | zero => simp [assignIds]
    | succ j =>
      simp only [assignIds, List.getElem?_cons_succ, ih (h :: seen) j, List.take_succ_cons]
      cases hj : t[j]? with
      | none => simp
      | some x =>
        simp only [Option.map_some']
        have : ((h :: seen) ++ t.take j).count x = (seen ++ h :: t.take j).count x := by
          simp [List.count_append, List.count_cons]
          omega
        rw [this]

theorem make_external_ids_length (hash : String → String) (batch : List TxnRec) :
    (make_external_ids hash batch).length = batch.length := by
  simp [make_external_ids, assignIds_length]

theorem make_external_ids_nodup (hash : String → String) (batch : List TxnRec) :
    (make_external_ids hash batch).Nodup :=
  assignIds_nodup [] _

theorem make_external_ids_getElem? (hash : String → String) (batch : List TxnRec)
    (i : Nat) (r : TxnRec) (h : batch[i]? = some r) :
    (make_external_ids hash batch)[i]? =
      some (encodeId (hash (sig r))
        (((batch.take i).map (fun x => hash (sig x))).count (hash (sig r)) + 1)) := by
  simp [make_external_ids, assignIds_getElem?, h, List.map_take]

theorem insertAux_spec (now : String) :
    ∀ (batch : List (String × TxnRec)) (M : Ledger) (ins skip : Nat),
    ∃ tail, (insertAux now M ins skip batch).1.rows = M.rows ++ tail
      ∧ (insertAux now M ins skip batch).2.1 = ins + tail.length
      ∧ (insertAux now M ins skip batch).2.1 + (insertAux now M ins skip batch).2.2
          = ins + skip + batch.length := by
  intro batch
  induction batch with
  | nil => intro M ins skip; exact ⟨[], by simp [insertAux]⟩
  | cons er rest ih =>
    intro M ins skip
    by_cases hm : er.1 ∈ extIds M
    · simp only [insertAux, if_pos hm]
      obtain ⟨tail, h1, h2, h3⟩ := ih M ins (skip + 1)
      exact ⟨tail, h1, h2, by simp only [List.length_cons]; omega⟩
    · simp only [insertAux, if_neg hm]
      obtain ⟨tail, h1, h2, h3⟩ :=
        ih { rows := M.rows ++ [toTxn M.nextId now er.1 er.2], nextId := M.nextId + 1 }
          (ins + 1) skip
      refine ⟨toTxn M.nextId now er.1 er.2 :: tail, ?_,
        by simp only [List.length_cons]; omega, by simp only [List.length_cons]; omega⟩
      rw [h1]
      simp

theorem extIds_append_singleton (M : Ledger) (t : Txn) :
    extIds { rows := M.rows ++ [t], nextId := M.nextId + 1 } = extIds M ++ [t.external_id] := by
  simp [extIds]

theorem insertAux_mem_extIds (now : String) :
    ∀ (batch : List (String × TxnRec)) (M : Ledger) (ins skip : Nat),
    ∀ p ∈ batch, p.1 ∈ extIds (insertAux now M ins skip batch).1 := by
  intro batch
  induction batch with
  | nil => intro M ins skip p hp; simp at hp
  | cons er rest ih =>
    intro M ins skip p hp
    rcases List.mem_cons.mp hp with hpe | hpr
    · subst hpe
      by_cases hm : p.1 ∈ extIds M
      · simp only [insertAux, if_pos hm]
        obtain ⟨tail, h1, -, -⟩ := insertAux_spec now rest M ins (skip + 1)
        have : extIds (insertAux now M ins (skip + 1) rest).1 = extIds M ++ tail.map (fun t => t.external_id) := by
          simp [extIds, h1]
        rw [this]
        exact List.mem_append_left _ hm
      · simp only [insertAux, if_neg hm]
        set M2 : Ledger := { rows := M.rows ++ [toTxn M.nextId now p.1 p.2], nextId := M.nextId + 1 } with hM2
        obtain ⟨tail, h1, -, -⟩ := insertAux_spec now rest M2 (ins + 1) skip
        have hx : extIds (insertAux now M2 (ins + 1) skip rest).1 = extIds M2 ++ tail.map (fun t => t.external_id) := by
          simp [extIds, h1]
        rw [hx]
        apply List.mem_append_left
        rw [hM2, extIds_append_singleton]
        simp [toTxn]
    · by_cases hm : er.1 ∈ extIds M
      · simp only [insertAux, if_pos hm]
        exact ih M ins (skip + 1) p hpr
      · simp only [insertAux, if_neg hm]
        exact ih _ (ins + 1) skip p hpr

theorem insertAux_all_present (now : String) :
    ∀ (batch : List (String × TxnRec)) (M : Ledger) (ins skip : Nat),
    (∀ p ∈ batch, p.1 ∈ extIds M) →
    insertAux now M ins skip batch = (M, ins, skip + batch.length) := by
  intro batch
  induction batch with
  | nil => intro M ins skip _; simp [insertAux]
  | cons er rest ih =>
    intro M ins skip hall
    have hm : er.1 ∈ extIds M := hall er (List.mem_cons_self _ _)
    simp only [insertAux, if_pos hm]
    rw [ih M ins (skip + 1) (fun p hp => hall p (List.mem_cons_of_mem _ hp))]
    simp [Nat.add_assoc, Nat.add_comm 1]

theorem insertAux_all_fresh (now : String) :
    ∀ (batch : List (String × TxnRec)) (M : Ledger) (ins skip : Nat),
    (batch.map Prod.fst).Nodup → (∀ p ∈ batch, p.1 ∉ extIds M) →
    (insertAux now M ins skip batch).2.1 = ins + batch.length
      ∧ (insertAux now M ins skip batch).2.2 = skip := by
  intro batch
  induction batch with
  | nil => intro M ins skip _ _; simp [insertAux]
  | cons er rest ih =>
    intro M ins skip hnd hall
    have hm : er.1 ∉ extIds M := hall er (List.mem_cons_self _ _)
    simp only [insertAux, if_neg hm]
    simp only [List.map_cons, List.nodup_cons] at hnd
    have hfresh : ∀ p ∈ rest, p.1 ∉ extIds
        { rows := M.rows ++ [toTxn M.nextId now er.1 er.2], nextId := M.nextId + 1 } := by
      intro p hp
      rw [extIds_append_singleton]
      intro hmem
      rcases List.mem_append.mp hmem with hx | hx
      · exact hall p (List.mem_cons_of_mem _ hp) hx
      · simp [toTxn] at hx
        exact hnd.1 (hx ▸ List.mem_map_of_mem Prod.fst hp)
    obtain ⟨h1, h2⟩ := ih _ (ins + 1) skip hnd.2 hfresh
    exact ⟨by simp only [List.length_cons]; omega, h2⟩

theorem zip_ids_length (hash : String → String) (batch : List TxnRec) :
    ((make_external_ids hash batch).zip batch).length = batch.length := by
  have h1 : ((make_external_ids hash batch).zip batch).map Prod.fst
      = make_external_ids hash batch :=
    List.map_fst_zip _ _ (le_of_eq (make_external_ids_length hash batch))
  have h2 := congrArg List.length h1
  rw [List.length_map] at h2
  rw [h2, make_external_ids_length]

theorem insertFltAux_ok (now : String) :
    ∀ (batch : List (String × TxnRec)) (fault : Nat → Option String) (M : Ledger)
      (ins skip : Nat),
    (∀ i, i < batch.length → fault i = none) →
    insertFltAux now fault M ins skip batch = .ok (insertAux now M ins skip batch) := by
  intro batch
  induction batch with
  | nil => intro fault M ins skip _; rfl
  | cons er rest ih =>
    intro fault M ins skip h
    have h0 : fault 0 = none := h 0 (by simp)
    simp only [insertFltAux, insertAux, h0]
    have hrest : ∀ i, i < rest.length → fault (i + 1) = none := by
      intro i hi
      exact h (i + 1) (by simpa [Nat.succ_lt_succ_iff] using hi)
    by_cases hm : er.1 ∈ extIds M
    · rw [if_pos hm, if_pos hm]
      exact ih _ M ins (skip + 1) hrest
    · rw [if_neg hm, if_neg hm]
      exact ih _ _ (ins + 1) skip hrest

theorem insertFltAux_error (now : String) :
    ∀ (i : Nat) (batch : List (String × TxnRec)) (fault : Nat → Option String)
      (M : Ledger) (ins skip : Nat) (e : String),
    i < batch.length → (∀ j, j < i → fault j = none) → fault i = some e →
    insertFltAux now fault M ins skip batch = .error e := by
  intro i
  induction i with
  | zero =>
    intro batch fault M ins skip e hlen hprev hf
    cases batch with
    | nil => simp at hlen
    | cons er rest => simp only [insertFltAux, hf]
  | succ k ih =>
    intro batch fault M ins skip e hlen hprev hf
    cases batch with
    | nil => simp at hlen
    | cons er rest =>
      have h0 : fault 0 = none := hprev 0 (Nat.succ_pos k)
      simp only [insertFltAux, h0]
      have hprev2 : ∀ j, j < k → fault (j + 1) = none := by
        intro j hj
        exact hprev (j + 1) (by omega)
      have hlen2 : k < rest.length := by simpa [Nat.succ_lt_succ_iff] using hlen
      by_cases hm : er.1 ∈ extIds M
      · rw [if_pos hm]
        exact ih rest _ M ins (skip + 1) e hlen2 hprev2 hf
      · rw [if_neg hm]
        exact ih rest _ _ (ins + 1) skip e hlen2 hprev2 hf

/-- C1: importing the same parsed batch a second time inserts 0 new rows.
With the external identifiers produced by `make_external_ids`, the second
call of `insert_rows` over the same rows in the same order skips every row
on the uniqueness constraint: it returns `inserted = 0` and
`skipped = batch length` (so `inserted + skipped` equals the number of rows
in the batch), and the ledger state is exactly the state left by the first
call. -/
theorem claim_C1_idempotent_import (hash : String → String) (now1 now2 : String)
    (L : Ledger) (batch : List TxnRec) :
    insert_rows now2 (insert_rows now1 L ((make_external_ids hash batch).zip batch)).1
        ((make_external_ids hash batch).zip batch)
      = ((insert_rows now1 L ((make_external_ids hash batch).zip batch)).1, 0, batch.length) := by
  have hpres : ∀ p ∈ (make_external_ids hash batch).zip batch,
      p.1 ∈ extIds (insert_rows now1 L ((make_external_ids hash batch).zip batch)).1 :=
    insertAux_mem_extIds now1 _ L 0 0
  have h := insertAux_all_present now2 ((make_external_ids hash batch).zip batch)
    (insert_rows now1 L ((make_external_ids hash batch).zip batch)).1 0 0 hpres
  calc insert_rows now2 (insert_rows now1 L ((make_external_ids hash batch).zip batch)).1
        ((make_external_ids hash batch).zip batch)
      = ((insert_rows now1 L ((make_external_ids hash batch).zip batch)).1, 0,
          0 + ((make_external_ids hash batch).zip batch).length) := h
  _ = _ := by rw [zip_ids_length]; simp

/-- C5: within one batch, records with equal content hashes receive an
incrementing per-group suffix in batch order (`hash-1`, `hash-2`, ...), so
all external identifiers of a batch are pairwise distinct, and a batch of
fresh rows — in particular two genuinely identical transactions — is
inserted in full by `insert_rows` (inserted = batch length, skipped = 0).
This holds for every content-hash function, collisions included. -/
theorem claim_C5_duplicate_preservation (hash : String → String) (batch : List TxnRec) :
    (make_external_ids hash batch).Nodup
  ∧ (∀ (i : Nat) (r : TxnRec), batch[i]? = some r →
      (make_external_ids hash batch)[i]? =
        some (encodeId (hash (sig r))
          (((batch.take i).map (fun x => hash (sig x))).count (hash (sig r)) + 1)))
  ∧ (∀ (now : String) (L : Ledger),
      (∀ e ∈ make_external_ids hash batch, e ∉ extIds L) →
      (insert_rows now L ((make_external_ids hash batch).zip batch)).2.1 = batch.length
        ∧ (insert_rows now L ((make_external_ids hash batch).zip batch)).2.2 = 0) := by
  refine ⟨make_external_ids_nodup hash batch,
    fun i r h => make_external_ids_getElem? hash batch i r h, ?_⟩
  intro now L hfresh
  have hmapfst : ((make_external_ids hash batch).zip batch).map Prod.fst
      = make_external_ids hash batch :=
    List.map_fst_zip _ _ (le_of_eq (make_external_ids_length hash batch))
  have hnd : (((make_external_ids hash batch).zip batch).map Prod.fst).Nodup := by
    rw [hmapfst]; exact make_external_ids_nodup hash batch
  have hf : ∀ p ∈ (make_external_ids hash batch).zip batch, p.1 ∉ extIds L := by
    intro p hp
    apply hfresh
    rw [← hmapfst]
    exact List.mem_map_of_mem Prod.fst hp
  obtain ⟨h1, h2⟩ := insertAux_all_fresh now _ L 0 0 hnd hf
  refine ⟨?_, h2⟩
  rw [insert_rows, h1, zip_ids_length]
  simp

/-- C8: `insert_rows` attempts each record independently.  The returned
pair is exactly `(inserted, skipped)` with `inserted + skipped` the batch
size; the store after the call is the old rows (unchanged, never
overwritten) followed by exactly `inserted` new rows; a single row whose
identifier is already present is counted as one skip and leaves the store
untouched; and under the explicit fault model, a fault-free run agrees
with `insert_rows` while any storage failure other than the uniqueness
violation propagates as an error instead of being counted as a skip. -/
theorem claim_C8_insert_semantics (now : String) (L : Ledger)
    (batch : List (String × TxnRec)) (fault : Nat → Option String) :
    ((insert_rows now L batch).2.1 + (insert_rows now L batch).2.2 = batch.length)
  ∧ (∃ tail, (insert_rows now L batch).1.rows = L.rows ++ tail
      ∧ tail.length = (insert_rows now L batch).2.1)
  ∧ (∀ p : String × TxnRec, p.1 ∈ extIds L → insert_rows now L [p] = (L, 0, 1))
  ∧ ((∀ i, i < batch.length → fault i = none) →
      insert_rows_flt now fault L batch = .ok (insert_rows now L batch))
  ∧ (∀ (i : Nat) (e : String), i < batch.length → (∀ j, j < i → fault j = none) →
      fault i = some e → insert_rows_flt now fault L batch = .error e) := by
  simp only [insert_rows, insert_rows_flt]
  obtain ⟨tail, h1, h2, h3⟩ := insertAux_spec now batch L 0 0
  refine ⟨by simpa using h3, ⟨tail, h1, by omega⟩, ?_, ?_, ?_⟩
  · intro p hp
    have := insertAux_all_present now [p] L 0 0 (by simpa using hp)
    simpa using this
  · intro h
    exact insertFltAux_ok now batch fault L 0 0 h
  · intro i e hlen hprev hf
    exact insertFltAux_error now i batch fault L 0 0 e hlen hprev hf

theorem contains_true_of_mem {l : List String} {a : String} (h : a ∈ l) :
    l.contains a = true := by
  simpa using h

theorem find_id_of_nodup : ∀ (ledger : List Txn),
    (ledger.map (fun t => t.id)).Nodup →
    ∀ (j : Nat) (t : Txn), ledger[j]? = some t →
    ledger.find? (fun u => u.id == t.id) = some t := by
  intro ledger
  induction ledger with
  | nil => intro _ j t h; simp at h
  | cons h0 rest ih =>
    intro hnd j t hj
    simp only [List.map_cons, List.nodup_cons] at hnd
    cases j with
    | zero =>
      simp only [List.getElem?_cons_zero, Option.some.injEq] at hj
      subst hj
      simp
    | succ k =>
      simp only [List.getElem?_cons_succ] at hj
      have hmem : t ∈ rest := List.getElem?_mem hj
      have hne : (h0.id == t.id) = false := by
        simp only [beq_eq_false_iff_ne, ne_eq]
        intro he
        exact hnd.1 (he ▸ List.mem_map_of_mem (fun t => t.id) hmem)
      simp only [List.find?, hne]
      exact ih hnd.2 k t hj

theorem applyUpdates_id (u : Updates) (t : Txn) : (applyUpdates u t).id = t.id := rfl

theorem update_txn_getElem?_id (ledger : List Txn) (tid : Nat) (u : Updates) (j : Nat) :
    ((update_txn_by_id ledger tid u)[j]?).map (fun t => t.id)
      = (ledger[j]?).map (fun t => t.id) := by
  unfold update_txn_by_id
  split
  · rfl
  · cases hj : ledger[j]? with
    | none => simp [hj]
    | some t =>
      simp only [List.getElem?_map, hj, Option.map_some']
      by_cases hb : (t.id == tid) = true <;> simp [hb, applyUpdates_id]

theorem update_txn_not_target (ledger : List Txn) (tid : Nat) (u : Updates) (j : Nat)
    (t : Txn) (hj : ledger[j]? = some t) (hne : t.id ≠ tid) :
    (update_txn_by_id ledger tid u)[j]? = some t := by
  have hb : (t.id == tid) = false := by simpa using hne
  unfold update_txn_by_id
  split
  · exact hj
  · simp [List.getElem?_map, hj, hb]
    exact fun heq => absurd heq hne

theorem saveEdits_fold_invariant (ledger : List Txn) (locked : List String)
    (hids : (ledger.map (fun t => t.id)).Nodup) :
    ∀ (edits : List (Nat × Updates)) (acc : List Txn × Nat),
    (∀ j : Nat, ((acc.1[j]?).map (fun t => t.id)) = ((ledger[j]?).map (fun t => t.id))) →
    (∀ (j : Nat) (t : Txn), ledger[j]? = some t → isLockedTxn locked t = true →
        acc.1[j]? = some t) →
    (∀ j : Nat, (((edits.foldl (saveEditStep ledger locked) acc).1[j]?).map (fun t => t.id))
        = ((ledger[j]?).map (fun t => t.id)))
    ∧ (∀ (j : Nat) (t : Txn), ledger[j]? = some t → isLockedTxn locked t = true →
        (edits.foldl (saveEditStep ledger locked) acc).1[j]? = some t) := by
  intro edits
  induction edits with
  | nil => intro acc h1 h2; exact ⟨h1, h2⟩
  | cons e rest ih =>
    intro acc h1 h2
    simp only [List.foldl_cons]
    apply ih
    · intro j
      unfold saveEditStep
      split
      · exact h1 j
      · split
        · exact h1 j
        · exact (update_txn_getElem?_id acc.1 e.1 e.2 j).trans (h1 j)
    · intro j t hj hl
      unfold saveEditStep
      split
      · exact h2 j t hj hl
      · split
        · exact h2 j t hj hl
        · rename_i hlock _
          apply update_txn_not_target acc.1 e.1 e.2 j t (h2 j t hj hl)
          intro heq
          apply hlock
          unfold isLockedId
          rw [← heq, find_id_of_nodup ledger hids j t hj]
          exact hl

theorem saveEdits_count (ledger : List Txn) (locked : List String) :
    ∀ (edits : List (Nat × Updates)) (acc : List Txn × Nat),
    (edits.foldl (saveEditStep ledger locked) acc).2
      = acc.2 + (edits.filter
          (fun e => !(isLockedId ledger locked e.1) && !(updatesEmpty e.2))).length := by
  intro edits
  induction edits with
  | nil => intro acc; simp
  | cons e rest ih =>
    intro acc
    simp only [List.foldl_cons, List.filter_cons]
    cases hb : isLockedId ledger locked e.1 with
    | true =>
      have hstep : saveEditStep ledger locked acc e = acc := by
        unfold saveEditStep; simp [hb]
      rw [hstep, ih acc]
      simp [hb]
    | false =>
      cases he : updatesEmpty e.2 with
      | true =>
        have hstep : saveEditStep ledger locked acc e = acc := by
          unfold saveEditStep; simp [hb, he]
        rw [hstep, ih acc]
        simp [hb, he]
      | false =>
        have hstep : saveEditStep ledger locked acc e
            = (update_txn_by_id acc.1 e.1 e.2, acc.2 + 1) := by
          unfold saveEditStep; simp [hb, he]
        rw [hstep, ih]
        simp [hb, he]
        omega

/-- C4: lock immutability.  A transaction dated in a locked month is left
unchanged both by `update_category_for_description` (the categorization
path) and by the bulk-save path over `update_txn_by_id`, and the change
count the bulk save reports counts exactly the unlocked nonempty edits, so
locked rows contribute 0 to it. -/
theorem claim_C4_lock_immutability (ledger : List Txn) (description category : String)
    (year : Nat) (locked : List String) (edits : List (Nat × Updates))
    (hids : (ledger.map (fun t => t.id)).Nodup)
    (i : Nat) (t : Txn) (hi : ledger[i]? = some t)
    (hlock : month_of t.txn_date ∈ locked) :
    (update_category_for_description ledger description category year locked)[i]? = some t
  ∧ (save_edits ledger locked edits).1[i]? = some t
  ∧ (save_edits ledger locked edits).2
      = (edits.filter
          (fun e => !(isLockedId ledger locked e.1) && !(updatesEmpty e.2))).length := by
  have hc : locked.contains (month_of t.txn_date) = true := contains_true_of_mem hlock
  have hlockb : isLockedTxn locked t = true := hc
  refine ⟨?_, ?_, ?_⟩
  · simp [update_category_for_description, List.getElem?_map, hi, hc]
    exact fun _ _ _ _ hnin => absurd hlock hnin
  · exact (saveEdits_fold_invariant ledger locked hids edits (ledger, 0)
      (fun j => rfl) (fun j u hj hl => hj)).2 i t hi hlockb
  · simpa [save_edits] using saveEdits_count ledger locked edits (ledger, 0)

/-- C2 (amended): the monthly savings rate computed by `compute_summary` is
`saved(m) / income(m)` whenever `income(m)` is nonzero — the code's
truthiness test, which also fires on a negative income month — and exactly
0 when `income(m) = 0`; likewise the YTD rate is
`total_saved / total_income` when `total_income` is nonzero and 0 when it
is 0.  No division by zero is ever performed. -/
theorem claim_C2_amended_savings_rate (txns : List Txn) (ecats icats : List String)
    (i : Nat) (m : String) (hm : monthCols[i]? = some m) :
    (compute_summary txns ecats icats).rate_months[i]? =
      some (if income_by_month txns icats m ≠ 0 then
              saved_by_month txns ecats icats m / income_by_month txns icats m
            else 0)
  ∧ (income_by_month txns icats m = 0 →
      (compute_summary txns ecats icats).rate_months[i]? = some 0)
  ∧ (compute_summary txns ecats icats).rate_ytd
      = (if total_income txns icats ≠ 0 then
           total_saved txns ecats icats / total_income txns icats
         else 0)
  ∧ (total_income txns icats = 0 → (compute_summary txns ecats icats).rate_ytd = 0) := by
  have h1 : (compute_summary txns ecats icats).rate_months[i]?
      = some (rate_month txns ecats icats m) := by
    simp [compute_summary, List.getElem?_map, hm]
  refine ⟨?_, ?_, rfl, ?_⟩
  · rw [h1]; rfl
  · intro h0; rw [h1]; simp [rate_month, h0]
  · intro h0; simp [compute_summary, savings_rate_ytd, h0]

unseal Rat.mul Rat.inv Rat.add Rat.sub Nat.gcd in
/-- C2 counterexample: the claim as stated requires rate 0 whenever income
is not positive, but on a transaction set whose January income is −100 the
code computes `saved / income = 1`, not 0 (the guard is `income ≠ 0`, not
`income > 0`). -/
theorem claim_C2_counterexample :
    (compute_summary [txNegIncome] [] ["Salary"]).rate_months[0]? = some 1
  ∧ ¬ 0 < income_by_month [txNegIncome] ["Salary"] "01"
  ∧ (compute_summary [txNegIncome] [] ["Salary"]).rate_months[0]?
      ≠ some (if 0 < income_by_month [txNegIncome] ["Salary"] "01" then
                saved_by_month [txNegIncome] [] ["Salary"] "01"
                  / income_by_month [txNegIncome] ["Salary"] "01"
              else 0)
  ∧ (compute_summary [txNegIncome] [] ["Salary"]).rate_ytd = 1 := by
  decide

unseal Rat.mul Rat.inv Rat.add Rat.sub Nat.gcd in
theorem claim_C2_amended_witness :
    monthCols[0]? = some "01"
  ∧ (compute_summary [txNegIncome] [] ["Salary"]).rate_months[0]? =
      some (if income_by_month [txNegIncome] ["Salary"] "01" ≠ 0 then
              saved_by_month [txNegIncome] [] ["Salary"] "01"
                / income_by_month [txNegIncome] ["Salary"] "01"
            else 0) :=
  ⟨by decide,
   (claim_C2_amended_savings_rate [txNegIncome] [] ["Salary"] 0 "01" (by decide)).1⟩

/-- C6: the expense table of `compute_summary` has exactly one category row
per entry of the caller-supplied expense category list, in the list's
order; a listed category absent from the data appears as an all-zero row;
a category present in the data but absent from the list contributes no
row. -/
theorem claim_C6_expense_table_shape (txns : List Txn) (ecats icats : List String) :
    ((compute_summary txns ecats icats).exp_table.dropLast.map Prod.fst = ecats)
  ∧ (∀ p ∈ (compute_summary txns ecats icats).exp_table.dropLast, p.1 ∈ ecats)
  ∧ (∀ (i : Nat) (c : String), ecats[i]? = some c → c ∉ expPivotCats txns →
      (compute_summary txns ecats icats).exp_table[i]?
        = some (c, deriveRow (List.replicate 12 0))
      ∧ deriveRow (List.replicate 12 0) = ⟨List.replicate 12 0, 0, 0, 0, 0⟩) := by
  have hdrop : (compute_summary txns ecats icats).exp_table.dropLast = expRows txns ecats := by
    simp [compute_summary]
  have hfst : (expRows txns ecats).map Prod.fst = ecats := by
    rw [expRows, List.map_map]
    exact List.map_id' ecats
  refine ⟨by rw [hdrop, hfst], ?_, ?_⟩
  · intro p hp
    rw [hdrop] at hp
    have := List.mem_map_of_mem Prod.fst hp
    rwa [hfst] at this
  · intro i c hic hnp
    have hlen : i < (expRows txns ecats).length := by
      have : i < ecats.length := by
        by_contra hge
        rw [List.getElem?_eq_none (by omega)] at hic
        exact Option.noConfusion hic
      simpa [expRows] using this
    have hcell : monthCols.map (expCell txns c) = List.replicate 12 0 := by
      have h0 : ∀ m ∈ monthCols, expCell txns c m = (0 : ℚ) := by
        intro m _
        simp [expCell, hnp]
      rw [List.map_congr_left h0, List.map_const']
      rfl
    constructor
    · rw [show (compute_summary txns ecats icats).exp_table
          = expRows txns ecats ++ [("Total Spent", expTotalRow txns ecats)] from rfl,
        List.getElem?_append_left hlen]
      simp [expRows, List.getElem?_map, hic, expRow, hcell]
    · simp [deriveRow, List.sum_replicate]

unseal Rat.mul Rat.inv Rat.add Rat.sub Nat.gcd in
theorem claim_C6_witness :
    (["Groceries"][0]? = some "Groceries" ∧ "Groceries" ∉ expPivotCats [])
  ∧ (compute_summary [] ["Groceries"] []).exp_table[0]?
      = some ("Groceries", deriveRow (List.replicate 12 0)) :=
  ⟨⟨by decide, by decide⟩,
   ((claim_C6_expense_table_shape [] ["Groceries"] []).2.2 0 "Groceries"
      (by decide) (by decide)).1⟩

/-- C7: every category row of the expense and income tables has twelve
month cells, and its derived columns satisfy YTD = sum of the month cells,
average-per-month = YTD / 12, average-per-week = YTD / 52 and
average-per-day = YTD / 364, with those fixed divisors. -/
theorem claim_C7_derived_columns (txns : List Txn) (ecats icats : List String)
    (p : String × RowData)
    (hp : p ∈ (compute_summary txns ecats icats).exp_table.dropLast
        ∨ p ∈ (compute_summary txns ecats icats).inc_table.dropLast) :
    p.2.months.length = 12
  ∧ p.2.ytd = p.2.months.sum
  ∧ p.2.apm = p.2.ytd / 12
  ∧ p.2.apw = p.2.ytd / 52
  ∧ p.2.apd = p.2.ytd / 364 := by
  have hrow : ∃ ms : List ℚ, ms.length = 12 ∧ p.2 = deriveRow ms := by
    rcases hp with hp | hp
    · rw [show (compute_summary txns ecats icats).exp_table.dropLast
          = expRows txns ecats from by simp [compute_summary]] at hp
      simp only [expRows, List.mem_map] at hp
      obtain ⟨c, _, hpc⟩ := hp
      exact ⟨monthCols.map (expCell txns c), by simp [monthCols], by rw [← hpc]; rfl⟩
    · rw [show (compute_summary txns ecats icats).inc_table.dropLast
          = incRows txns icats from by simp [compute_summary]] at hp
      simp only [incRows, List.mem_map] at hp
      obtain ⟨c, _, hpc⟩ := hp
      exact ⟨monthCols.map (incCell txns c), by simp [monthCols], by rw [← hpc]; rfl⟩
  obtain ⟨ms, hlen, heq⟩ := hrow
  rw [heq]
  exact ⟨by simpa [deriveRow] using hlen, rfl, rfl, rfl, rfl⟩

unseal Rat.mul Rat.inv Rat.add Rat.sub Nat.gcd in
theorem claim_C7_witness :
    (("Groceries", expRow [] "Groceries")
        ∈ (compute_summary [] ["Groceries"] []).exp_table.dropLast
      ∨ ("Groceries", expRow [] "Groceries")
        ∈ (compute_summary [] ["Groceries"] []).inc_table.dropLast)
  ∧ ((expRow [] "Groceries").months.length = 12
      ∧ (expRow [] "Groceries").ytd = (expRow [] "Groceries").months.sum
      ∧ (expRow [] "Groceries").apm = (expRow [] "Groceries").ytd / 12
      ∧ (expRow [] "Groceries").apw = (expRow [] "Groceries").ytd / 52
      ∧ (expRow [] "Groceries").apd = (expRow [] "Groceries").ytd / 364) :=
  ⟨Or.inl (by decide),
   claim_C7_derived_columns [] ["Groceries"] [] ("Groceries", expRow [] "Groceries")
     (Or.inl (by decide))⟩

unseal Rat.mul Rat.inv Rat.add Rat.sub Nat.gcd in
theorem claim_C4_witness :
    (([txMarch].map (fun t => t.id)).Nodup
      ∧ [txMarch][0]? = some txMarch
      ∧ month_of txMarch.txn_date ∈ ["03"])
  ∧ ((update_category_for_description [txMarch] "LATTE" "Dining" 2024 ["03"])[0]?
        = some txMarch
      ∧ (save_edits [txMarch] ["03"] [(1, updSetCategory)]).1[0]? = some txMarch
      ∧ (save_edits [txMarch] ["03"] [(1, updSetCategory)]).2
          = ([(1, updSetCategory)].filter
              (fun e => !(isLockedId [txMarch] ["03"] e.1) && !(updatesEmpty e.2))).length) :=
  ⟨⟨by decide, by decide, by decide⟩,
   claim_C4_lock_immutability [txMarch] "LATTE" "Dining" 2024 ["03"] [(1, updSetCategory)]
     (by decide) 0 txMarch (by decide) (by decide)⟩

unseal Rat.mul Rat.inv Rat.add Rat.sub Nat.gcd in
theorem claim_C5_witness :
    (∀ e ∈ make_external_ids (fun s => s) [recRepeated, recRepeated], e ∉ extIds emptyLedger)
  ∧ ((insert_rows "t1" emptyLedger
        ((make_external_ids (fun s => s) [recRepeated, recRepeated]).zip
          [recRepeated, recRepeated])).2.1 = 2
      ∧ (insert_rows "t1" emptyLedger
          ((make_external_ids (fun s => s) [recRepeated, recRepeated]).zip
            [recRepeated, recRepeated])).2.2 = 0) :=
  ⟨by decide,
   (claim_C5_duplicate_preservation (fun s => s) [recRepeated, recRepeated]).2.2 "t1"
     emptyLedger (by decide)⟩

unseal Rat.mul Rat.inv Rat.add Rat.sub Nat.gcd in
theorem claim_C8_witness :
    ("id1" ∈ extIds ledgerOne)
  ∧ insert_rows "t1" ledgerOne [("id1", recRepeated)] = (ledgerOne, 0, 1)
  ∧ insert_rows_flt "t1" (fun _ => none) ledgerOne [("id1", recRepeated)]
      = .ok (insert_rows "t1" ledgerOne [("id1", recRepeated)]) :=
  ⟨by decide,
   (claim_C8_insert_semantics "t1" ledgerOne [("id1", recRepeated)] (fun _ => none)).2.2.1
     ("id1", recRepeated) (by decide),
   (claim_C8_insert_semantics "t1" ledgerOne [("id1", recRepeated)] (fun _ => none)).2.2.2.1
     (fun _ _ => rfl)⟩

/-- C3 counterexample: auto-categorization does not normalize.  The two
descriptions `STARBUCKS 123` and `STARBUCKS 456` share the same normalized
form, yet against a preference map storing the first one the import path
categorizes the first and leaves the second uncategorized, so a stored
mapping is not found when the incoming description differs only by a digit
run (and likewise for case or whitespace differences). -/
theorem claim_C3_counterexample :
    normalize_description "STARBUCKS 123" = normalize_description "STARBUCKS 456"
  ∧ prefsLookup prefsCoffee "STARBUCKS 123" = some "Coffee"
  ∧ prefsLookup prefsCoffee "STARBUCKS 456" = none
  ∧ (apply_mapping prefsCoffee [recCoffee123]).map (fun r => r.category) = [some "Coffee"]
  ∧ (apply_mapping prefsCoffee [recCoffee456]).map (fun r => r.category) = [none] := by
  decide

/-- C3 (amended): during auto-categorization every expense record's
category is set by exact-match lookup of its raw (unnormalized) description
in the preference map; a mapping is found precisely when the raw
description occurs as a stored key, and equal raw descriptions receive
equal suggestions.  Normalization is used only by the separate opt-in
similar-variants pass. -/
theorem claim_C3_amended_exact_lookup (prefs : List (String × String)) (recs : List TxnRec) :
    (∀ (i : Nat) (r : TxnRec), recs[i]? = some r →
      (apply_mapping prefs recs)[i]?
        = some (if r.kind == "expense" then
                  { r with category := prefsLookup prefs r.description }
                else r))
  ∧ (∀ d : String, (prefsLookup prefs d).isSome ↔ ∃ c : String, (d, c) ∈ prefs)
  ∧ (∀ d1 d2 : String, d1 = d2 → prefsLookup prefs d1 = prefsLookup prefs d2)
  ∧ (∀ (desc : String) (others : List String),
      similar_variants desc others
        = others.filter (fun d => d != desc
            && normalize_description d == normalize_description desc)) := by
  refine ⟨?_, ?_, fun d1 d2 h => by rw [h], fun desc others => rfl⟩
  · intro i r h
    simp [apply_mapping, List.getElem?_map, h]
  · intro d
    simp only [prefsLookup, Option.isSome_map', List.find?_isSome]
    constructor
    · rintro ⟨⟨k, v⟩, hkv, hbeq⟩
      simp only [beq_iff_eq] at hbeq
      subst hbeq
      exact ⟨v, hkv⟩
    · rintro ⟨c, hc⟩
      exact ⟨(d, c), hc, by simp⟩

theorem claim_C3_amended_witness :
    ([recCoffee456][0]? = some recCoffee456)
  ∧ (apply_mapping prefsCoffee [recCoffee456])[0]?
      = some (if recCoffee456.kind == "expense" then
                { recCoffee456 with
                    category := prefsLookup prefsCoffee recCoffee456.description }
              else recCoffee456) :=
  ⟨by decide,
   (claim_C3_amended_exact_lookup prefsCoffee [recCoffee456]).1 0 recCoffee456 (by decide)⟩

theorem filter_dollar_comma (l : List Char) :
    (l.filter (fun c => c != '$')).filter (fun c => c != ',')
      = l.filter (fun c => c != '$' && c != ',') := by
  rw [List.filter_filter]
  exact List.filter_congr (fun a _ => Bool.and_comm _ _)

theorem parse_amount_str_eq (v : String) :
    parse_amount (.str v)
      = pyFloatQ (parenNeg (stripList (v.data.filter (fun c => c != '$' && c != ',')))) := by
  simp only [parse_amount, toList_eq_data, filter_dollar_comma]

theorem dropWhile_all_false {p : Char → Bool} :
    ∀ l : List Char, (∀ c ∈ l, p c = false) → l.dropWhile p = l
  | [], _ => rfl
  | c :: t, h => by
    have hc : p c = false := h c (List.mem_cons_self _ _)
    simp [List.dropWhile_cons, hc]

theorem stripList_no_ws (l : List Char) (h : ∀ c ∈ l, c.isWhitespace = false) :
    stripList l = l := by
  unfold stripList
  rw [dropWhile_all_false l h,
    dropWhile_all_false _ (fun c hc => h c (List.mem_reverse.mp hc)),
    List.reverse_reverse]

theorem parenNeg_wrap (t : List Char) : parenNeg ('(' :: t ++ [')']) = '-' :: t := by
  have hsplit : '(' :: t ++ [')'] = ('(' :: t) ++ [')'] := rfl
  unfold parenNeg
  rw [hsplit, List.getLast?_concat]
  simp [List.dropLast_concat]

theorem parseSigned_not_sign (l : List Char) (h1 : l.head? ≠ some '+')
    (h2 : l.head? ≠ some '-') : parseSigned l = parseUnsigned l := by
  unfold parseSigned
  split
  · exact absurd rfl h1
  · exact absurd rfl h2
  · rfl

theorem digit_not_ws {c : Char} (hd : c.isDigit = true) : c.isWhitespace = false := by
  by_contra h
  have hw : c.isWhitespace = true := by revert h; cases c.isWhitespace <;> simp
  simp only [Char.isWhitespace, Bool.or_eq_true, decide_eq_true_eq] at hw
  obtain ((rfl | rfl) | rfl) | rfl := hw <;> simp at hd

theorem not_dollar_comma {c : Char} (h : c.isDigit = true ∨ c = '.') :
    (c != '$' && c != ',') = true := by
  rcases h with hd | rfl
  · have hs1 : c ≠ '$' := by rintro rfl; simp at hd
    have hs2 : c ≠ ',' := by rintro rfl; simp at hd
    simp [hs1, hs2]
  · decide

theorem parse_amount_paren (t : List Char) (ht : ∀ c ∈ t, c.isDigit = true ∨ c = '.') :
    parse_amount (.str (String.mk ('(' :: t ++ [')'])))
      = (pyFloatQ t).map (fun q => -q) := by
  have hchars : ∀ c ∈ '(' :: t ++ [')'], (c != '$' && c != ',') = true := by
    intro c hc
    rcases List.mem_cons.mp hc with rfl | hc'
    · decide
    · rcases List.mem_append.mp hc' with hct | hcp
      · exact not_dollar_comma (ht c hct)
      · rw [List.mem_singleton.mp hcp]
        decide
  have htnws : ∀ c ∈ t, c.isWhitespace = false := by
    intro c hct
    rcases ht c hct with hd | rfl
    · exact digit_not_ws hd
    · decide
  have hnws : ∀ c ∈ '(' :: t ++ [')'], c.isWhitespace = false := by
    intro c hc
    rcases List.mem_cons.mp hc with rfl | hc'
    · decide
    · rcases List.mem_append.mp hc' with hct | hcp
      · exact htnws c hct
      · rw [List.mem_singleton.mp hcp]
        decide
  have h1 : t.head? ≠ some '+' := by
    intro hh
    cases t with
    | nil => simp at hh
    | cons c0 t' =>
      simp only [List.head?_cons, Option.some.injEq] at hh
      subst hh
      rcases ht '+' (List.mem_cons_self _ _) with hd | he
      · simp at hd
      · simp at he
  have h2 : t.head? ≠ some '-' := by
    intro hh
    cases t with
    | nil => simp at hh
    | cons c0 t' =>
      simp only [List.head?_cons, Option.some.injEq] at hh
      subst hh
      rcases ht '-' (List.mem_cons_self _ _) with hd | he
      · simp at hd
      · simp at he
  rw [parse_amount_str_eq]
  have hfix : (String.mk ('(' :: t ++ [')'])).data = '(' :: t ++ [')'] := rfl
  rw [hfix, List.filter_eq_self.mpr hchars, stripList_no_ws _ hnws, parenNeg_wrap]
  show parseSigned (stripList ('-' :: t)) = (parseSigned (stripList t)).map (fun q => -q)
  have hnws3 : ∀ c ∈ '-' :: t, c.isWhitespace = false := by
    intro c hc
    rcases List.mem_cons.mp hc with rfl | hc'
    · decide
    · exact htnws c hc'
  rw [stripList_no_ws _ hnws3, stripList_no_ws _ htnws, parseSigned_not_sign t h1 h2]
  rfl

theorem import_row_none_of_bad_amount (route : Bool) (acct : String)
    (fallback : String → Option PyDate) (r : RawRow)
    (h : parse_amount r.amt = none) : import_row route acct fallback r = none := by
  unfold import_row
  rw [h]
  cases parse_date fallback r.txn <;> rfl

unseal Rat.mul Rat.inv Rat.add Rat.sub Nat.gcd in
/-- C9: `parse_amount` depends only on the input with currency symbols
(`$`) and thousands separators (`,`) stripped; a parenthesized value
parses to the negation of its interior (in particular `(12.34)` parses to
−12.34); an unparseable value yields no amount; and a row whose amount is
unparseable is dropped by the import loop while the rest of the batch
continues. -/
theorem claim_C9_parse_amount :
    (∀ s1 s2 : String,
        s1.data.filter (fun c => c != '$' && c != ',')
          = s2.data.filter (fun c => c != '$' && c != ',') →
        parse_amount (.str s1) = parse_amount (.str s2))
  ∧ (∀ t : List Char, (∀ c ∈ t, c.isDigit = true ∨ c = '.') →
        parse_amount (.str (String.mk ('(' :: t ++ [')'])))
          = (pyFloatQ t).map (fun q => -q))
  ∧ parse_amount (.str "(12.34)") = some (-(1234 / 100 : ℚ))
  ∧ parse_amount (.str "abc") = none
  ∧ parse_amount .na = none
  ∧ (∀ (route : Bool) (acct : String) (fallback : String → Option PyDate)
        (r : RawRow) (rest : List RawRow), parse_amount r.amt = none →
        import_chase_rows route acct fallback (r :: rest)
          = import_chase_rows route acct fallback rest) := by
  refine ⟨?_, parse_amount_paren, by decide, by decide, rfl, ?_⟩
  · intro s1 s2 h
    rw [parse_amount_str_eq, parse_amount_str_eq, h]
  · intro route acct fallback r rest h
    simp only [import_chase_rows]
    rw [List.filterMap_cons_none (import_row_none_of_bad_amount route acct fallback r h)]

unseal Rat.mul Rat.inv Rat.add Rat.sub Nat.gcd in
theorem claim_C9_witness :
    ("$1,234.56".data.filter (fun c => c != '$' && c != ',')
        = "1234.56".data.filter (fun c => c != '$' && c != ','))
  ∧ parse_amount (.str "$1,234.56") = parse_amount (.str "1234.56")
  ∧ (∀ c ∈ "12.34".data, c.isDigit = true ∨ c = '.')
  ∧ parse_amount (.str (String.mk ('(' :: "12.34".data ++ [')'])))
      = (pyFloatQ "12.34".data).map (fun q => -q)
  ∧ parse_amount rawRowBadAmount.amt = none
  ∧ import_chase_rows true "Chase" (fun _ => none) [rawRowBadAmount, rawRowGood]
      = import_chase_rows true "Chase" (fun _ => none) [rawRowGood] :=
  ⟨by decide,
   claim_C9_parse_amount.1 "$1,234.56" "1234.56" (by decide),
   by decide,
   claim_C9_parse_amount.2.1 "12.34".data (by decide),
   by decide,
   claim_C9_parse_amount.2.2.2.2.2 true "Chase" (fun _ => none) rawRowBadAmount
     [rawRowGood] (by decide)⟩

theorem mkValidDate_valid {y m d : Nat} {dd : PyDate} (h : mkValidDate y m d = some dd) :
    validDate dd := by
  unfold mkValidDate at h
  split at h
  · rename_i hcond
    cases h
    simp only [Bool.and_eq_true, decide_eq_true_eq] at hcond
    unfold validDate
    dsimp only
    omega
  · exact Option.noConfusion h

theorem strptime_mdY_valid {s : String} {d : PyDate} (h : strptime_mdY s = some d) :
    validDate d := by
  unfold strptime_mdY at h
  split at h
  · simp only [Option.bind_eq_bind, Option.bind_eq_some] at h
    obtain ⟨m, -, dd, -, y, -, hmk⟩ := h
    exact mkValidDate_valid hmk
  · exact Option.noConfusion h

theorem strptime_mdy_valid {s : String} {d : PyDate} (h : strptime_mdy s = some d) :
    validDate d := by
  unfold strptime_mdy at h
  split at h
  · simp only [Option.bind_eq_bind, Option.bind_eq_some] at h
    obtain ⟨m, -, dd, -, y, -, hmk⟩ := h
    exact mkValidDate_valid hmk
  · exact Option.noConfusion h

theorem strptime_Ymd_valid {s : String} {d : PyDate} (h : strptime_Ymd s = some d) :
    validDate d := by
  unfold strptime_Ymd at h
  split at h
  · simp only [Option.bind_eq_bind, Option.bind_eq_some] at h
    obtain ⟨m, -, dd, -, y, -, hmk⟩ := h
    exact mkValidDate_valid hmk
  · exact Option.noConfusion h

theorem parse_date_isoformat {fallback : String → Option PyDate}
    (hfb : ∀ s d, fallback s = some d → validDate d)
    {val : Option String} {out : String} (h : parse_date fallback val = some out) :
    ∃ d : PyDate, validDate d ∧ out = isoformat d := by
  cases val with
  | none => exact Option.noConfusion h
  | some w =>
    unfold parse_date at h
    cases h1 : strptime_mdY (pyStrip w) with
    | some d =>
      simp only [h1, Option.some.injEq] at h
      exact ⟨d, strptime_mdY_valid h1, h.symm⟩
    | none =>
      simp only [h1] at h
      cases h2 : strptime_mdy (pyStrip w) with
      | some d =>
        simp only [h2, Option.some.injEq] at h
        exact ⟨d, strptime_mdy_valid h2, h.symm⟩
      | none =>
        simp only [h2] at h
        cases h3 : strptime_Ymd (pyStrip w) with
        | some d =>
          simp only [h3, Option.some.injEq] at h
          exact ⟨d, strptime_Ymd_valid h3, h.symm⟩
        | none =>
          simp only [h3, Option.map_eq_some'] at h
          obtain ⟨d, hd, hiso⟩ := h
          exact ⟨d, hfb _ d hd, hiso.symm⟩

theorem natDigitsAux_len : ∀ (fuel n k : Nat), n < 10 ^ fuel → 10 ^ k ≤ n →
    n < 10 ^ (k + 1) → (natDigitsAux fuel n).length = k + 1 := by
  intro fuel
  induction fuel with
  | zero =>
    intro n k h1 h2 _
    have : 1 ≤ 10 ^ k := Nat.one_le_pow _ _ (by norm_num)
    simp at h1
    omega
  | succ f ih =>
    intro n k h1 h2 h3
    by_cases hn : n < 10
    · have hk : k = 0 := by
        by_contra hk0
        have : 10 ≤ 10 ^ k := by
          calc 10 = 10 ^ 1 := (pow_one 10).symm
          _ ≤ 10 ^ k := Nat.pow_le_pow_right (by norm_num) (by omega)
        omega
      subst hk
      simp [natDigitsAux, hn]
    · obtain ⟨k', rfl⟩ : ∃ k', k = k' + 1 := by
        refine ⟨k - 1, ?_⟩
        have : k ≠ 0 := by
          rintro rfl
          rw [pow_one] at h3
          omega
        omega
      have hd1 : n / 10 < 10 ^ f := by
        rw [Nat.div_lt_iff_lt_mul (by norm_num)]
        calc n < 10 ^ (f + 1) := h1
        _ = 10 ^ f * 10 := by rw [pow_succ]
      have hd2 : 10 ^ k' ≤ n / 10 := by
        rw [Nat.le_div_iff_mul_le (by norm_num)]
        calc 10 ^ k' * 10 = 10 ^ (k' + 1) := by rw [pow_succ]
        _ ≤ n := h2
      have hd3 : n / 10 < 10 ^ (k' + 1) := by
        rw [Nat.div_lt_iff_lt_mul (by norm_num)]
        calc n < 10 ^ (k' + 1 + 1) := h3
        _ = 10 ^ (k' + 1) * 10 := by rw [pow_succ]
      simp only [natDigitsAux, if_neg hn]
      rw [List.length_append, ih _ _ hd1 hd2 hd3]
      simp

theorem natToStr_data_len (n k : Nat) (h2 : 10 ^ k ≤ n) (h3 : n < 10 ^ (k + 1)) :
    (natToStr n).data.length = k + 1 := by
  have h0 : n < 10 ^ n := Nat.lt_pow_self (by norm_num) n
  have h1 : n < 10 ^ (n + 1) :=
    lt_of_lt_of_le h0 (Nat.pow_le_pow_right (by norm_num) (Nat.le_succ n))
  exact natDigitsAux_len (n + 1) n k h1 h2 h3

theorem natToStr_data_len_one (n : Nat) (h : n < 10) : (natToStr n).data.length = 1 := by
  show (natDigitsAux (n + 1) n).length = 1
  simp [natDigitsAux, h]

theorem pad2_data_len (m : Nat) (h : m ≤ 99) : (pad2 m).data.length = 2 := by
  unfold pad2
  split
  · rename_i hlt
    rw [data_append, List.length_append, natToStr_data_len_one m hlt]
    rfl
  · rename_i hge
    exact natToStr_data_len m 1 (by omega) (by omega)

theorem pad4_data_len (y : Nat) (h : y ≤ 9999) : (pad4 y).data.length = 4 := by
  unfold pad4
  split
  · rename_i hlt
    rw [data_append, List.length_append, natToStr_data_len_one y hlt]
    rfl
  · split
    · rename_i hge hlt
      rw [data_append, List.length_append, natToStr_data_len y 1 (by omega) (by omega)]
      rfl
    · split
      · rename_i hge1 hge2 hlt
        rw [data_append, List.length_append, natToStr_data_len y 2 (by omega) (by omega)]
        rfl
      · rename_i hge1 hge2 hge3
        exact natToStr_data_len y 3 (by omega) (by omega)

theorem isoformat_data (d : PyDate) :
    (isoformat d).data
      = ((pad4 d.year).data ++ ['-'])
        ++ ((pad2 d.month).data ++ ('-' :: (pad2 d.day).data)) := by
  simp [isoformat, data_append]

theorem pySlice_iso_month (d : PyDate) (h4 : (pad4 d.year).data.length = 4)
    (h2 : (pad2 d.month).data.length = 2) :
    pySlice (isoformat d) 5 7 = pad2 d.month := by
  unfold pySlice
  rw [toList_eq_data, isoformat_data d,
    List.drop_left' (by rw [List.length_append, h4]; rfl),
    List.take_left' h2]

theorem pySlice_iso_year (d : PyDate) (h4 : (pad4 d.year).data.length = 4) :
    pySlice (isoformat d) 0 4 = pad4 d.year := by
  unfold pySlice
  rw [toList_eq_data, isoformat_data d, List.drop_zero, List.append_assoc,
    List.take_left' h4]

theorem pad4_eq_natToStr (y : Nat) (h : 1000 ≤ y) : pad4 y = natToStr y := by
  unfold pad4
  rw [if_neg (by omega), if_neg (by omega), if_neg (by omega)]

theorem evalDigits_cons_zero (l : List Char) : evalDigits ('0' :: l) = evalDigits l := rfl

theorem evalDigits_pad2 (m : Nat) : evalDigits (pad2 m).data = m := by
  unfold pad2
  split
  · rw [data_append]
    show evalDigits ('0' :: (natToStr m).data) = m
    rw [evalDigits_cons_zero]
    exact natToStr_eval m
  · exact natToStr_eval m

/-- C10 counterexample: every stored transaction date is an ISO string, but
the string-based year filter does not always agree with the actual
calendar year.  The text `0005-01-03` parses (via the `%Y-%m-%d` format)
into calendar year 5, is stored as the zero-padded ISO text `0005-01-03`,
and its first four characters `0005` differ from `str(5)`, so
`fetch_year(5)` fails to retrieve a transaction dated in year 5.  The
month extraction still agrees. -/
theorem claim_C10_counterexample :
    parse_date (fun _ => none) (some "0005-01-03") = some "0005-01-03"
  ∧ pySlice "0005-01-03" 0 4 ≠ natToStr 5
  ∧ fetch_year [txYear5] 5 = []
  ∧ txYear5.txn_date = "0005-01-03"
  ∧ pySlice "0005-01-03" 5 7 = pad2 1 := by
  refine ⟨by decide, by decide, ?_, rfl, by decide⟩
  have hfalse : (pySlice txYear5.txn_date 0 4 == natToStr 5) = false := by decide
  simp [fetch_year, List.filter_cons, hfalse]

/-- C10 (amended): every date `parse_date` returns is `date.isoformat()` of
a valid calendar date: the month slice (characters 5..6) is always the
zero-padded actual month and reads back to it, the year slice (first four
characters) is the zero-padded actual year, and for four-digit years
(1000–9999) it equals `str(year)` and reads back to the actual year, so
`fetch_year` retrieves every stored transaction carrying such a date.  For
years below 1000 the zero padding makes the filter disagree with
`str(year)`. -/
theorem claim_C10_amended_iso_dates (fallback : String → Option PyDate)
    (hfb : ∀ s d, fallback s = some d → validDate d)
    (val : Option String) (out : String)
    (h : parse_date fallback val = some out) :
    ∃ d : PyDate, validDate d ∧ out = isoformat d
      ∧ pySlice out 5 7 = pad2 d.month
      ∧ evalDigits (pySlice out 5 7).data = d.month
      ∧ pySlice out 0 4 = pad4 d.year
      ∧ (1000 ≤ d.year →
          pySlice out 0 4 = natToStr d.year
          ∧ evalDigits (pySlice out 0 4).data = d.year
          ∧ ∀ (ledger : List Txn) (t : Txn), t ∈ ledger → t.txn_date = out →
              t ∈ fetch_year ledger d.year) := by
  obtain ⟨d, hv, hiso⟩ := parse_date_isoformat hfb h
  have hy : d.year ≤ 9999 := hv.2.1
  have hm : d.month ≤ 12 := hv.2.2.2.1
  have h4 := pad4_data_len d.year hy
  have h2 := pad2_data_len d.month (by omega)
  have hmonth : pySlice out 5 7 = pad2 d.month := by
    rw [hiso]; exact pySlice_iso_month d h4 h2
  have hyear : pySlice out 0 4 = pad4 d.year := by
    rw [hiso]; exact pySlice_iso_year d h4
  refine ⟨d, hv, hiso, hmonth, ?_, hyear, ?_⟩
  · rw [hmonth]; exact evalDigits_pad2 d.month
  · intro h1000
    have hys : pySlice out 0 4 = natToStr d.year := by
      rw [hyear, pad4_eq_natToStr d.year h1000]
    refine ⟨hys, by rw [hys]; exact natToStr_eval d.year, ?_⟩
    intro ledger t htl htd
    unfold fetch_year
    rw [List.mem_mergeSort, List.mem_filter]
    refine ⟨htl, ?_⟩
    rw [htd, hys]
    simp

theorem claim_C10_amended_witness :
    (∀ (s : String) (d : PyDate), (fun _ => (none : Option PyDate)) s = some d → validDate d)
  ∧ parse_date (fun _ => none) (some "01/05/2024") = some "2024-01-05"
  ∧ (∃ d : PyDate, validDate d ∧ "2024-01-05" = isoformat d
      ∧ pySlice "2024-01-05" 5 7 = pad2 d.month
      ∧ evalDigits (pySlice "2024-01-05" 5 7).data = d.month
      ∧ pySlice "2024-01-05" 0 4 = pad4 d.year
      ∧ (1000 ≤ d.year →
          pySlice "2024-01-05" 0 4 = natToStr d.year
          ∧ evalDigits (pySlice "2024-01-05" 0 4).data = d.year
          ∧ ∀ (ledger : List Txn) (t : Txn), t ∈ ledger → t.txn_date = "2024-01-05" →
              t ∈ fetch_year ledger d.year)) :=
  ⟨fun _ d hd => Option.noConfusion hd, by decide,
   claim_C10_amended_iso_dates (fun _ => none) (fun _ d hd => Option.noConfusion hd)
     (some "01/05/2024") "2024-01-05" (by decide)⟩
